import Mathlib

/-!
Verification of the deterministic rule engine of the Course Companion backend:
quiz grading (`backend/services/quiz_service.py`), attempt accounting, and
progress/streak tracking (`backend/services/progress_service.py`).

The Python services are shallowly embedded as pure Lean functions:

* SQLAlchemy rows become structures; the database session becomes an explicit
  `Db` value threaded through `submit_quiz`, and raised `HTTPException`s become
  an `Except` error result.
* `question.answer_config` is stored as a JSON string and parsed with
  `json.loads` at grading time; here it is embedded already parsed
  (`AnswerConfig`), with the JSON shapes the graders actually access
  (string / boolean / list-of-strings `correct`, string `explanation`,
  optional string `regex`).  Configuration shapes on which the Python graders
  raise `TypeError` (for example a boolean `correct` for a fill-in-blank
  question) are modelled by the grader returning `none`.
* Python `str.strip` / `str.lower` are modelled by `String.trim` /
  `String.toLower` (ASCII model of case folding and whitespace).
* The `re` library collaborator is modelled by a small regular-expression
  engine (`Rx`): a parser for the pattern subset of literals, escapes,
  character classes, `.`, grouping, alternation and the `*`/`+`/`?`/`{m,n}`
  quantifiers, Brzozowski-derivative matching, and an inductive match
  semantics `RxMatch`.  `re.compile` failure is modelled by the parser
  returning `none`; constructs outside the subset (anchors, backreferences,
  lookaround, possessive quantifiers) are likewise modelled as compile
  failure.
* IEEE-754 double arithmetic in the score computation
  `int(points_earned / total_points * 100)` is modelled exactly by
  `floatRound`, correct rounding (round-to-nearest, ties-to-even) to a
  53-bit significand over `ℚ` with unbounded exponent (faithful in the
  absence of overflow and underflow, which the score range cannot reach).
* Timestamps and user-local calendar dates are modelled as integers; the
  timezone conversion performed by the `pytz` collaborator in
  `calculate_streak` is modelled by taking the list of user-local activity
  dates as the input.
-/

/-- Grading-relevant fields of `Settings` (`backend/core/config.py`), with the
declared defaults. -/
structure Settings where
  QUIZ_PASSING_SCORE : Nat := 70
  QUIZ_MAX_ATTEMPTS : Nat := 5
  QUIZ_TRIM_WHITESPACE : Bool := true
  QUIZ_CASE_INSENSITIVE : Bool := true
  deriving Repr, DecidableEq

/-- The settings instance produced by `get_settings()` when no environment
overrides are present (defaults of `config.py` lines 98-101). -/
def defaultSettings : Settings := {}

/-- A JSON value stored under the `"correct"` key of an answer configuration:
the shapes the graders encounter are a string, a boolean, or a list of
strings. -/
inductive CorrectVal where
  | s (v : String)
  | b (v : Bool)
  | l (vs : List String)
  deriving Repr, DecidableEq

/-- Parsed form of the JSON `answer_config` of a question; `none` for
`correct`/`regex` models an absent key (`dict.get` default). -/
structure AnswerConfig where
  correct : Option CorrectVal := none
  explanation : String := ""
  regex : Option String := none
  deriving Repr, DecidableEq

/-- The `questions` row (`backend/api/models/quiz.py`), restricted to the
fields read by the quiz service. -/
structure Question where
  id : Int
  quiz_id : Int
  question_number : Int
  question_type : String
  answer_config : AnswerConfig
  case_sensitive : Bool := false
  trim_whitespace : Bool := true
  points : Nat := 1
  deriving Repr, DecidableEq

/-- The `quizzes` row (`backend/api/models/quiz.py`), restricted to the fields
read by the quiz service. -/
structure Quiz where
  id : Int
  chapter_id : Int := 0
  passing_score : Nat := 70
  max_attempts : Nat := 5
  is_published : Bool := true
  deriving Repr, DecidableEq

/-- The `quiz_attempts` row (`backend/api/models/quiz_attempt.py`), restricted
to the fields written by `submit_quiz` that the claims mention. -/
structure QuizAttempt where
  user_id : Int
  quiz_id : Int
  attempt_number : Nat
  score : Nat
  correct_count : Nat
  total_questions : Nat
  passed : Bool
  deriving Repr, DecidableEq

/-- Python `str(value)` for the values reachable from the `"correct"` key
(`str` of a string is itself, of a boolean is `"True"`/`"False"`, of a list is
its bracketed repr); the absent key yields the `dict.get` default `""`. -/
def pyStrOfCorrect : Option CorrectVal → String
  | none => ""
  | some (.s v) => v
  | some (.b true) => "True"
  | some (.b false) => "False"
  | some (.l vs) =>
    let q := String.singleton (Char.ofNat 39)
    "[" ++ String.intercalate ", " (vs.map fun v => q ++ v ++ q) ++ "]"

/-- The string on which `_grade_multiple_choice` calls `.strip()`: `none`
models the `TypeError` raised when the configured value is not a string. -/
def mcCorrectStr : Option CorrectVal → Option String
  | none => some ""
  | some (.s v) => some v
  | some _ => none

/-- `correct_answers` after the `isinstance(correct_answers, str)` wrapping in
`_grade_fill_in_blank` (lines 289-291): `none` models the `TypeError` raised
further down when the configured value is a boolean. -/
def fibCorrectList : Option CorrectVal → Option (List String)
  | none => some []
  | some (.s v) => some [v]
  | some (.l vs) => some vs
  | some (.b _) => none

/-- Python `str.strip()`: drop leading and trailing whitespace (ASCII model,
expressed on the character list so that it evaluates by kernel reduction). -/
def pyStrip (s : String) : String :=
  ⟨((s.data.dropWhile Char.isWhitespace).reverse.dropWhile Char.isWhitespace).reverse⟩

/-- Python `str.lower()` (ASCII model). -/
def pyLower (s : String) : String :=
  ⟨s.data.map Char.toLower⟩

/-- `QuizService._normalize_boolean` (quiz_service.py lines 321-333). -/
def normalize_boolean (value : String) : Bool :=
  let v := pyLower (pyStrip value)
  if v = "true" ∨ v = "t" ∨ v = "yes" ∨ v = "y" ∨ v = "1" then true
  else if v = "false" ∨ v = "f" ∨ v = "no" ∨ v = "n" ∨ v = "0" then false
  else false

/-! ## Regular-expression engine (model of the `re` collaborator)

`Rx` is the abstract syntax produced by compiling a pattern: character classes
(a negation flag and a list of inclusive ranges; `.` is the negated class of
`\n`), concatenation, alternation and Kleene star.  Matching is defined both
executably (Brzozowski derivatives, `rmatchStart` mirroring the
anchored-at-the-start semantics of `pattern.match`) and declaratively
(`RxMatch`). -/

/-- Regular-expression abstract syntax. -/
inductive Rx where
  | fail
  | eps
  | cls (neg : Bool) (ranges : List (Char × Char))
  | cat (a b : Rx)
  | alt (a b : Rx)
  | star (a : Rx)
  deriving Repr, DecidableEq

/-- Does character `c` fall in one of the inclusive ranges?  With `ci` set the
comparison is case-folded, modelling `re.IGNORECASE`. -/
def charInRanges (ci : Bool) (c : Char) : List (Char × Char) → Bool
  | [] => false
  | (lo, hi) :: rs =>
    (if ci then lo.toLower ≤ c.toLower ∧ c.toLower ≤ hi.toLower
     else lo ≤ c ∧ c ≤ hi) || charInRanges ci c rs

/-- Character-class membership, negation flag included. -/
def clsMatch (ci neg : Bool) (rs : List (Char × Char)) (c : Char) : Bool :=
  if neg then !(charInRanges ci c rs) else charInRanges ci c rs

/-- Does the regex accept the empty word? -/
def nullable : Rx → Bool
  | .fail => false
  | .eps => true
  | .cls _ _ => false
  | .cat a b => nullable a && nullable b
  | .alt a b => nullable a || nullable b
  | .star _ => true

/-- Brzozowski derivative of a regex by one character. -/
def rderiv (ci : Bool) (c : Char) : Rx → Rx
  | .fail => .fail
  | .eps => .fail
  | .cls neg rs => if clsMatch ci neg rs c then .eps else .fail
  | .cat a b =>
    if nullable a then .alt (.cat (rderiv ci c a) b) (rderiv ci c b)
    else .cat (rderiv ci c a) b
  | .alt a b => .alt (rderiv ci c a) (rderiv ci c b)
  | .star a => .cat (rderiv ci c a) (.star a)

/-- Anchored-at-the-start matching: does some prefix of the input lie in the
language of the regex?  This is the boolean content of Python
`pattern.match(input)`. -/
def rmatchStart (ci : Bool) (r : Rx) : List Char → Bool
  | [] => nullable r
  | c :: cs => nullable r || rmatchStart ci (rderiv ci c r) cs

/-- Declarative match semantics of `Rx`. -/
inductive RxMatch (ci : Bool) : Rx → List Char → Prop where
  | eps : RxMatch ci .eps []
  | cls {neg rs c} : clsMatch ci neg rs c = true → RxMatch ci (.cls neg rs) [c]
  | cat {a b s t} : RxMatch ci a s → RxMatch ci b t → RxMatch ci (.cat a b) (s ++ t)
  | altL {a b s} : RxMatch ci a s → RxMatch ci (.alt a b) s
  | altR {a b s} : RxMatch ci b s → RxMatch ci (.alt a b) s
  | starNil {a} : RxMatch ci (.star a) []
  | starCons {a s t} : RxMatch ci a s → RxMatch ci (.star a) t →
      RxMatch ci (.star a) (s ++ t)

/-! ### Pattern parser

A fuel-indexed recursive-descent parser for the modelled pattern subset.
`none` models `re.error` from `re.compile`; Python-accepted constructs outside
the subset (anchors `^` `$`, escapes such as `\b` `\A`, backreferences,
lookaround, possessive quantifiers) are conservatively mapped to `none` as
well. -/

/-- Ranges of `\w` (ASCII model). -/
def wordRanges : List (Char × Char) := [('a', 'z'), ('A', 'Z'), ('0', '9'), ('_', '_')]

/-- Ranges of `\s` (ASCII model: tab through carriage return, and space). -/
def spaceRanges : List (Char × Char) := [(Char.ofNat 9, Char.ofNat 13), (' ', ' ')]

/-- Ranges of `\d`. -/
def digitRanges : List (Char × Char) := [('0', '9')]

/-- An escape sequence in atom position: `some` is the recognized regex, `none`
models `re.error` (bad escape / group reference) and the unmodelled
letter escapes. -/
def escAtom (c : Char) : Option Rx :=
  if c = 'd' then some (.cls false digitRanges)
  else if c = 'D' then some (.cls true digitRanges)
  else if c = 'w' then some (.cls false wordRanges)
  else if c = 'W' then some (.cls true wordRanges)
  else if c = 's' then some (.cls false spaceRanges)
  else if c = 'S' then some (.cls true spaceRanges)
  else if c.isAlphanum then none
  else some (.cls false [(c, c)])

/-- Ranges contributed by an escape inside a character class. -/
def classEsc (c : Char) : Option (List (Char × Char)) :=
  if c = 'd' then some digitRanges
  else if c = 'w' then some wordRanges
  else if c = 's' then some spaceRanges
  else if c.isAlphanum then none
  else some [(c, c)]

/-- Items of a character class, up to the closing bracket; `none` models an
unterminated set or a bad range. -/
def classItems : List Char → Option (List (Char × Char) × List Char)
  | [] => none
  | ']' :: rest => some ([], rest)
  | '\\' :: c :: rest => do
    let rs ← classEsc c
    let (rs2, rem) ← classItems rest
    some (rs ++ rs2, rem)
  | c :: '-' :: d :: rest =>
    if d = ']' then some ([(c, c), ('-', '-')], rest)
    else if c ≤ d then do
      let (rs, rem) ← classItems rest
      some ((c, d) :: rs, rem)
    else none
  | c :: rest => do
    let (rs, rem) ← classItems rest
    some ((c, c) :: rs, rem)
  termination_by s => s.length

/-- A whole character class, after the opening bracket: optional negation,
then a possibly-leading literal close bracket, then items. -/
def parseClass (s : List Char) : Option (Rx × List Char) :=
  let (neg, s1) := match s with
    | '^' :: rest => (true, rest)
    | _ => (false, s)
  match s1 with
  | ']' :: rest => (classItems rest).map fun p => (Rx.cls neg ((']', ']') :: p.1), p.2)
  | _ => (classItems s1).map fun p => (Rx.cls neg p.1, p.2)

/-- A run of decimal digits (at least one), with its value. -/
def parseDigits : List Char → Option (Nat × List Char)
  | c :: rest =>
    if c.isDigit then
      let rec go (acc : Nat) : List Char → Nat × List Char
        | d :: ds => if d.isDigit then go (acc * 10 + (d.toNat - 48)) ds else (acc, d :: ds)
        | [] => (acc, [])
      some (go (c.toNat - 48) rest)
    else none
  | [] => none

/-- Exactly `n` copies. -/
def repeatRx (r : Rx) : Nat → Rx
  | 0 => .eps
  | n + 1 => .cat r (repeatRx r n)

/-- Up to `n` copies. -/
def optRepeat (r : Rx) : Nat → Rx
  | 0 => .eps
  | n + 1 => .alt .eps (.cat r (optRepeat r n))

/-- A `{m}` / `{m,}` / `{m,n}` / `{,n}` repetition spec after the opening
brace, applied to `r`.  Returns `none` when the text after the brace is not a
repetition spec (the brace is then a literal, as in Python) and
`some none` when the spec is well-formed but invalid (`min repeat greater
than max repeat`). -/
def parseBraceSpec (r : Rx) (s : List Char) : Option (Option (Rx × List Char)) :=
  match parseDigits s with
  | some (m, rest) =>
    match rest with
    | '}' :: rem => some (some (repeatRx r m, rem))
    | ',' :: rest2 =>
      match rest2 with
      | '}' :: rem => some (some (.cat (repeatRx r m) (.star r), rem))
      | _ =>
        match parseDigits rest2 with
        | some (n, '}' :: rem) =>
          if m ≤ n then some (some (.cat (repeatRx r m) (optRepeat r (n - m)), rem))
          else some none
        | _ => none
    | _ => none
  | none =>
    match s with
    | ',' :: rest =>
      match parseDigits rest with
      | some (n, '}' :: rem) => some (some (optRepeat r n, rem))
      | _ => none
    | _ => none

/-- Rejects a further quantifier (`multiple repeat`). -/
def noMoreQuant (r : Rx) (s : List Char) : Option (Rx × List Char) :=
  match s with
  | '*' :: _ => none
  | '+' :: _ => none
  | '?' :: _ => none
  | '{' :: rest =>
    match parseBraceSpec r rest with
    | some _ => none
    | none => some (r, s)
  | _ => some (r, s)

/-- After one quantifier: one lazy `?` is allowed, a further quantifier is
`multiple repeat`, a possessive `+`/`*` is outside the modelled subset. -/
def quantAfter (r : Rx) (s : List Char) : Option (Rx × List Char) :=
  match s with
  | '?' :: rest => noMoreQuant r rest
  | '*' :: _ => none
  | '+' :: _ => none
  | '{' :: rest =>
    match parseBraceSpec r rest with
    | some _ => none
    | none => some (r, s)
  | _ => some (r, s)

/-- Optional quantifier after an atom. -/
def quantTail (r : Rx) (s : List Char) : Option (Rx × List Char) :=
  match s with
  | '*' :: rest => quantAfter (.star r) rest
  | '+' :: rest => quantAfter (.cat r (.star r)) rest
  | '?' :: rest => quantAfter (.alt r .eps) rest
  | '{' :: rest =>
    match parseBraceSpec r rest with
    | some (some (r2, rem)) => quantAfter r2 rem
    | some none => none
    | none => some (r, s)
  | _ => some (r, s)

mutual

/-- An alternation (the whole pattern, or a group body). -/
def parseAlt : Nat → List Char → Option (Rx × List Char)
  | 0, _ => none
  | n + 1, s => do
    let (r, s1) ← parseCat n s
    parseAltRest n r s1

/-- Remaining `|`-separated branches. -/
def parseAltRest : Nat → Rx → List Char → Option (Rx × List Char)
  | 0, _, _ => none
  | n + 1, acc, s =>
    match s with
    | '|' :: rest => do
      let (r, s1) ← parseCat n rest
      parseAltRest n (.alt acc r) s1
    | _ => some (acc, s)

/-- A concatenation (possibly empty: Python accepts empty branches). -/
def parseCat : Nat → List Char → Option (Rx × List Char)
  | 0, _ => none
  | n + 1, s => parseCatRest n .eps s

/-- Remaining atoms of a concatenation. -/
def parseCatRest : Nat → Rx → List Char → Option (Rx × List Char)
  | 0, _, _ => none
  | n + 1, acc, s =>
    match s with
    | [] => some (acc, [])
    | c :: _ =>
      if c = '|' ∨ c = ')' then some (acc, s)
      else do
        let (r, s1) ← parseRep n s
        parseCatRest n (.cat acc r) s1

/-- One atom with its optional quantifier. -/
def parseRep : Nat → List Char → Option (Rx × List Char)
  | 0, _ => none
  | n + 1, s => do
    let (r, s1) ← parseAtom n s
    quantTail r s1

/-- One atom: group, class, dot, escape, or literal; quantifiers with nothing
to repeat, unbalanced brackets, anchors, and group extensions other than
`(?:` are `none`. -/
def parseAtom : Nat → List Char → Option (Rx × List Char)
  | 0, _ => none
  | n + 1, s =>
    match s with
    | [] => none
    | '(' :: '?' :: ':' :: rest => do
      let (r, s1) ← parseAlt n rest
      match s1 with
      | ')' :: s2 => some (r, s2)
      | _ => none
    | '(' :: '?' :: _ => none
    | '(' :: rest => do
      let (r, s1) ← parseAlt n rest
      match s1 with
      | ')' :: s2 => some (r, s2)
      | _ => none
    | ')' :: _ => none
    | '[' :: rest => parseClass rest
    | '.' :: rest => some (.cls true [('\n', '\n')], rest)
    | '\\' :: c :: rest => (escAtom c).map fun r => (r, rest)
    | '\\' :: [] => none
    | '^' :: _ => none
    | '$' :: _ => none
    | '*' :: _ => none
    | '+' :: _ => none
    | '?' :: _ => none
    | '{' :: rest =>
      match parseBraceSpec .eps rest with
      | some _ => none
      | none => some (.cls false [('{', '{')], rest)
    | c :: rest => some (.cls false [(c, c)], rest)

end

/-- Model of `re.compile(pattern)`: `none` is a `re.error` (or a construct
outside the modelled subset); the input must be consumed entirely. -/
def compileRx (pat : String) : Option Rx :=
  match parseAlt (16 * (pat.length + 1)) pat.data with
  | some (r, []) => some r
  | _ => none

/-! ## Graders (`QuizService`, quiz_service.py) -/

/-- `QuizService._grade_multiple_choice` (lines 240-258): case- and
whitespace-insensitive equality against the configured correct option.
`none` models the `TypeError` on a non-string configured value. -/
def grade_multiple_choice (cfg : AnswerConfig) (ua : String) :
    Option (Bool × String × String) :=
  (mcCorrectStr cfg.correct).map fun correct_answer =>
    (pyLower (pyStrip ua) == pyLower (pyStrip correct_answer), correct_answer,
      cfg.explanation)

/-- `QuizService._grade_true_false` (lines 260-278): both sides through the
boolean lexicon, unparsable input defaulting to `false`. -/
def grade_true_false (cfg : AnswerConfig) (ua : String) : Bool × String × String :=
  let correct_answer := pyStrOfCorrect cfg.correct
  (normalize_boolean ua == normalize_boolean correct_answer, correct_answer,
    cfg.explanation)

/-- `QuizService._grade_fill_in_blank` (lines 280-319).  Trimming happens when
the per-question flag *or* the process-wide setting asks for it (line 297),
case folding when the question is not case sensitive *or* the process-wide
setting asks for it (line 301).  A non-empty configured regex replaces the
membership test by anchored matching of the (trimmed, unfolded) user answer,
with `re.IGNORECASE` exactly when the question is not case sensitive; a
compile failure grades `false`.  `none` models the `TypeError` on a boolean
`correct` value. -/
def grade_fill_in_blank (st : Settings) (q : Question) (ua : String) :
    Option (Bool × String × String) :=
  (fibCorrectList q.answer_config.correct).map fun correct_answers =>
    let user_answer :=
      if q.trim_whitespace || st.QUIZ_TRIM_WHITESPACE then pyStrip ua else ua
    let user_answer_normalized :=
      if !q.case_sensitive || st.QUIZ_CASE_INSENSITIVE then pyLower user_answer
      else user_answer
    let correct_answers_normalized :=
      if !q.case_sensitive || st.QUIZ_CASE_INSENSITIVE then correct_answers.map pyLower
      else correct_answers
    let is_correct :=
      match q.answer_config.regex with
      | some pat =>
        if pat ≠ "" then
          match compileRx pat with
          | some r => rmatchStart (!q.case_sensitive) r user_answer.data
          | none => false
        else correct_answers_normalized.contains user_answer_normalized
      | none => correct_answers_normalized.contains user_answer_normalized
    (is_correct, correct_answers.headD "", cfg_explanation q)
where
  /-- The `explanation` field of the question's configuration. -/
  cfg_explanation (q : Question) : String := q.answer_config.explanation

/-- `QuizService.grade_answer` (lines 204-238): dispatch on the question type,
with the fail-closed default for unknown types. -/
def grade_answer (st : Settings) (q : Question) (ua : String) :
    Option (Bool × String × String) :=
  if q.question_type = "multiple_choice" then grade_multiple_choice q.answer_config ua
  else if q.question_type = "true_false" then some (grade_true_false q.answer_config ua)
  else if q.question_type = "fill_in_blank" then grade_fill_in_blank st q ua
  else some (false, "", "Unknown question type")

/-! ## IEEE-754 binary64 model for the score computation

`submit_quiz` computes `int(points_earned / total_points * 100)` with Python
floats.  `floatRound` is correct rounding (round-to-nearest, ties-to-even) to
a 53-bit significand over `ℚ`, with unbounded exponent: exact for binary64 in
the absence of overflow and underflow, which this computation (values between
`2^-1075` and `101` never arise for representable operand sizes) cannot
produce.  Only nonnegative inputs occur here, so negative arguments are mapped
to `0` by convention. -/

/-- Round a rational to an integer, nearest, ties to even. -/
def roundNE (q : ℚ) : ℤ :=
  if q - (⌊q⌋ : ℚ) < 1 / 2 then ⌊q⌋
  else if 1 / 2 < q - (⌊q⌋ : ℚ) then ⌊q⌋ + 1
  else if ⌊q⌋ % 2 = 0 then ⌊q⌋ else ⌊q⌋ + 1

/-- Correct rounding of a nonnegative rational to 53 significant bits
(round-to-nearest, ties-to-even), the value a binary64 operation returns for
this exact result. -/
def floatRound (q : ℚ) : ℚ :=
  if q ≤ 0 then 0
  else (roundNE (q * 2 ^ (52 - Int.log 2 q)) : ℚ) / 2 ^ (52 - Int.log 2 q)

/-- The score computation of `submit_quiz` line 164:
`int((points_earned / total_points * 100)) if total_points > 0 else 0`, with
both binary64 operations correctly rounded and `int()` truncating (toward
zero; the value is nonnegative). -/
def pyScore (points_earned total_points : Nat) : Nat :=
  if 0 < total_points then
    (⌊floatRound (floatRound ((points_earned : ℚ) / (total_points : ℚ)) * 100)⌋).toNat
  else 0

/-! ## Quiz submission (`QuizService.submit_quiz`) -/

/-- The database state visible to the quiz service: quiz rows, question rows,
and the append-only attempt history. -/
structure Db where
  quizzes : List Quiz := []
  questions : List Question := []
  attempts : List QuizAttempt := []
  deriving Repr, DecidableEq

/-- The failures `submit_quiz` can raise: the 404 of `get_quiz_by_id`, the 403
`AttemptsExhausted` of the attempt ceiling, and an uncaught `TypeError` from a
malformed answer configuration. -/
inductive SubmitError where
  | notFound
  | attemptsExhausted
  | typeError
  deriving Repr, DecidableEq

/-- One entry of the per-question feedback list built by `submit_quiz`. -/
structure FeedbackEntry where
  question_id : Int
  question_number : Int
  user_answer : String
  is_correct : Bool
  correct_answer : String
  explanation : String
  points_earned : Nat
  points_possible : Nat
  deriving Repr, DecidableEq

/-- The dictionary returned by `submit_quiz` (fields the claims mention). -/
structure SubmitResult where
  quiz_id : Int
  attempt_number : Nat
  score : Nat
  points_earned : Nat
  total_points : Nat
  correct_count : Nat
  total_questions : Nat
  passed : Bool
  feedback : List FeedbackEntry
  deriving Repr, DecidableEq

/-- Ascending insertion by question number (the `ORDER BY question_number` of
`get_quiz_questions`). -/
def insertByNumber (q : Question) : List Question → List Question
  | [] => [q]
  | p :: ps =>
    if q.question_number ≤ p.question_number then q :: p :: ps
    else p :: insertByNumber q ps

/-- Insertion sort by question number. -/
def sortByNumber : List Question → List Question
  | [] => []
  | q :: qs => insertByNumber q (sortByNumber qs)

/-- `QuizService.get_quiz_questions` (lines 73-92): the quiz's questions in
question-number order. -/
def get_quiz_questions (db : Db) (quiz_id : Int) : List Question :=
  sortByNumber (db.questions.filter fun q => q.quiz_id == quiz_id)

/-- `QuizService.get_user_attempt_count` (lines 335-355). -/
def get_user_attempt_count (db : Db) (user_id quiz_id : Int) : Nat :=
  (db.attempts.filter fun a => a.user_id == user_id && a.quiz_id == quiz_id).length

/-- The caller-supplied answer for a question: `answers.get(question.id, "")`
(line 138). -/
def userAnswerFor (answers : List (Int × String)) (q : Question) : String :=
  (answers.lookup q.id).getD ""

/-- Grade every question of the quiz against the answer map; `none` models an
uncaught `TypeError` from one of the graders. -/
def gradeAll (st : Settings) (qs : List Question) (answers : List (Int × String)) :
    Option (List (Question × Bool × String × String)) :=
  qs.mapM fun q => (grade_answer st q (userAnswerFor answers q)).map fun r => (q, r)

/-- The aggregation loop of `submit_quiz` (lines 131-167), expressed on the
list `graded` of per-question grading results: the questions graded correct,
the points they earn, the total points, and the score/pass verdict. -/
def submitResult (db : Db) (user_id quiz_id : Int)
    (answers : List (Int × String)) (quiz : Quiz)
    (graded : List (Question × Bool × String × String)) : SubmitResult :=
  let questions := get_quiz_questions db quiz_id
  let total_points := (questions.map fun q => q.points).sum
  let correct := graded.filter fun g => g.2.1
  let points_earned := (correct.map fun g => g.1.points).sum
  let score := pyScore points_earned total_points
  { quiz_id := quiz_id
    attempt_number := get_user_attempt_count db user_id quiz_id + 1
    score := score
    points_earned := points_earned
    total_points := total_points
    correct_count := correct.length
    total_questions := questions.length
    passed := decide (quiz.passing_score ≤ score)
    feedback := graded.map fun g =>
      { question_id := g.1.id
        question_number := g.1.question_number
        user_answer := userAnswerFor answers g.1
        is_correct := g.2.1
        correct_answer := g.2.2.1
        explanation := g.2.2.2
        points_earned := if g.2.1 then g.1.points else 0
        points_possible := g.1.points : FeedbackEntry } }

/-- The attempt record persisted by `submit_quiz` (lines 169-183), carrying
`attempt_number = attempt_count + 1`. -/
def submitAttempt (db : Db) (user_id quiz_id : Int)
    (answers : List (Int × String)) (quiz : Quiz)
    (graded : List (Question × Bool × String × String)) : QuizAttempt :=
  let res := submitResult db user_id quiz_id answers quiz graded
  { user_id := user_id
    quiz_id := quiz_id
    attempt_number := res.attempt_number
    score := res.score
    correct_count := res.correct_count
    total_questions := res.total_questions
    passed := res.passed }

/-- `QuizService.submit_quiz` (lines 94-202): load the published quiz, enforce
the attempt ceiling, grade every question, compute the score, and append the
attempt record.  Errors are raised before any mutation, so the database is
returned unchanged on every failure. -/
def submit_quiz (st : Settings) (db : Db) (user_id quiz_id : Int)
    (answers : List (Int × String)) : Except SubmitError SubmitResult × Db :=
  match db.quizzes.find? fun qz => qz.id == quiz_id with
  | none => (.error .notFound, db)
  | some quiz =>
    if !quiz.is_published then (.error .notFound, db)
    else if quiz.max_attempts ≤ get_user_attempt_count db user_id quiz_id then
      (.error .attemptsExhausted, db)
    else
      match gradeAll st (get_quiz_questions db quiz_id) answers with
      | none => (.error .typeError, db)
      | some graded =>
        (.ok (submitResult db user_id quiz_id answers quiz graded),
          { db with attempts :=
              db.attempts ++ [submitAttempt db user_id quiz_id answers quiz graded] })

/-- A request to `submit_quiz`, for sequencing submissions. -/
structure SubmitReq where
  user_id : Int
  quiz_id : Int
  answers : List (Int × String)
  deriving Repr, DecidableEq

/-- Run a sequence of submissions, threading the database. -/
def runSubmits (st : Settings) : List SubmitReq → Db → Db
  | [], db => db
  | r :: rs, db => runSubmits st rs (submit_quiz st db r.user_id r.quiz_id r.answers).2

/-- The attempt numbers recorded for a given (user, quiz), in insertion
order. -/
def attemptNumbers (db : Db) (user_id quiz_id : Int) : List Nat :=
  (db.attempts.filter fun a => a.user_id == user_id && a.quiz_id == quiz_id).map
    fun a => a.attempt_number

/-- The attempt history is gapless: for every (user, quiz) the recorded
attempt numbers are exactly `1, 2, ..., count` in order. -/
def WellNumbered (db : Db) : Prop :=
  ∀ user_id quiz_id : Int,
    attemptNumbers db user_id quiz_id =
      List.range' 1 (get_user_attempt_count db user_id quiz_id)

/-! ## Progress and streaks (`ProgressService`, progress_service.py) -/

/-- The `progress` row (`backend/api/models/progress.py`), restricted to the
fields `mark_chapter_complete` touches; timestamps are modelled as
integers. -/
structure Progress where
  user_id : Int
  chapter_id : Int
  is_completed : Bool := false
  completed_at : Option Int := none
  time_spent_seconds : Int := 0
  last_accessed_at : Int := 0
  deriving Repr, DecidableEq

/-- Python truthiness of an optional integer (`if time_spent_seconds:`). -/
def pyTruthy : Option Int → Bool
  | none => false
  | some v => v != 0

/-- `ProgressService.mark_chapter_complete` (lines 29-95), restricted to the
produced progress row: create the row as completed, or update the existing
row — completing it only if it was not yet completed, accumulating truthy
time, and advancing the access time.  The streak write-back and the commit are
collaborator effects outside this row. -/
def mark_chapter_complete (existing : Option Progress) (user_id chapter_id : Int)
    (time_spent_seconds : Option Int) (now : Int) : Progress :=
  match existing with
  | none =>
    { user_id := user_id
      chapter_id := chapter_id
      is_completed := true
      completed_at := some now
      time_spent_seconds := time_spent_seconds.getD 0
      last_accessed_at := now }
  | some progress =>
    let p1 :=
      if !progress.is_completed then
        { progress with is_completed := true, completed_at := some now }
      else progress
    let p2 :=
      if pyTruthy time_spent_seconds then
        { p1 with time_spent_seconds := p1.time_spent_seconds + time_spent_seconds.getD 0 }
      else p1
    { p2 with last_accessed_at := now }

/-- The streak summary returned by `calculate_streak`; `last_activity_date` is
the most recent local activity date (the Python code wraps it back into a
midnight datetime). -/
structure StreakInfo where
  current_streak : Nat
  longest_streak : Nat
  last_activity_date : Option Int
  streak_status : String
  days_until_broken : Option Nat
  deriving Repr, DecidableEq

/-- Descending insertion of a date. -/
def insertDesc (x : Int) : List Int → List Int
  | [] => [x]
  | y :: ys => if y ≤ x then x :: y :: ys else y :: insertDesc x ys

/-- Descending sort (`sorted(activity_dates, reverse=True)`). -/
def sortDesc : List Int → List Int
  | [] => []
  | x :: xs => insertDesc x (sortDesc xs)

/-- The distinct activity dates, sorted descending (lines 236-243). -/
def sortedDates (dates : List Int) : List Int :=
  sortDesc dates.dedup

/-- The consecutive-day walk of lines 256-263: count dates continuing the run
that starts at `cur`, stopping at the first gap.  The final branch (a repeated
date, impossible after deduplication and sorting) mirrors the loop skipping an
index without counting it. -/
def streakWalk (cur : Int) : List Int → Nat
  | [] => 0
  | d :: rest =>
    if d = cur - 1 then 1 + streakWalk d rest
    else if d < cur - 1 then 0
    else streakWalk cur rest

/-- The longest-run scan of lines 266-274, returning the accumulated maximum
and the final run length. -/
def longestScan : List Int → Nat → Nat → Nat × Nat
  | a :: b :: rest, temp, longest =>
    if a - b = 1 then longestScan (b :: rest) (temp + 1) (max longest (temp + 1))
    else longestScan (b :: rest) 1 longest
  | _, temp, longest => (longest, temp)

/-- `ProgressService.calculate_streak` (lines 204-298) as a function of the
user-local activity dates and today's local date. -/
def calculate_streak (dates : List Int) (today : Int) : StreakInfo :=
  if dates.isEmpty then
    { current_streak := 0
      longest_streak := 0
      last_activity_date := none
      streak_status := "broken"
      days_until_broken := none }
  else
    match sortedDates dates with
    | [] =>
      { current_streak := 0
        longest_streak := 0
        last_activity_date := none
        streak_status := "broken"
        days_until_broken := none }
    | d0 :: rest =>
      let yesterday := today - 1
      let current_streak := if yesterday ≤ d0 then 1 + streakWalk d0 rest else 0
      let scan := longestScan (d0 :: rest) 1 0
      let longest_streak := max (max scan.1 scan.2) current_streak
      let days_since_activity := today - d0
      let status_pair : String × Option Nat :=
        if days_since_activity = 0 then ("active", some 1)
        else if days_since_activity = 1 then ("at_risk", some 0)
        else ("broken", none)
      { current_streak := current_streak
        longest_streak := longest_streak
        last_activity_date := some d0
        streak_status := status_pair.1
        days_until_broken := status_pair.2 }

/-- The user answer the fill-in-blank grader actually matches the regex
against: the raw answer, trimmed when the per-question flag or the
process-wide setting asks for it (quiz_service.py line 297). -/
def fibUserAnswer (st : Settings) (q : Question) (ua : String) : String :=
  if q.trim_whitespace || st.QUIZ_TRIM_WHITESPACE then pyStrip ua else ua

/-- A fill-in-blank configuration under which the empty user answer cannot
grade correct: no compiled form of an effective regex accepts the empty word,
and the empty string is in neither the raw nor the case-folded
accepted-answer list. -/
def FibRejectsEmpty (q : Question) : Prop :=
  (∀ pat, q.answer_config.regex = some pat → pat ≠ "" →
    ∀ r, compileRx pat = some r → nullable r = false) ∧
  (∀ l, fibCorrectList q.answer_config.correct = some l →
    "" ∉ l ∧ "" ∉ l.map pyLower)

/-! ## Concrete instances used by witnesses and counterexamples -/

/-- A true/false question whose configured correct value is `"false"`. -/
def exTfQuestion : Question :=
  { id := 10
    quiz_id := 1
    question_number := 1
    question_type := "true_false"
    answer_config := { correct := some (.s "false") } }

/-- A published quiz allowing two attempts. -/
def exQuiz : Quiz := { id := 1, max_attempts := 2 }

/-- A database holding the quiz and its single true/false question. -/
def exDb : Db := { quizzes := [exQuiz], questions := [exTfQuestion] }

/-- A prior attempt record for user 7 on quiz 1. -/
def exAttempt (n : Nat) : QuizAttempt :=
  { user_id := 7
    quiz_id := 1
    attempt_number := n
    score := 0
    correct_count := 0
    total_questions := 1
    passed := false }

/-- The database after user 7 has used up both attempts. -/
def exDbFull : Db := { exDb with attempts := [exAttempt 1, exAttempt 2] }

/-- A fill-in-blank question with `case_sensitive` set and `trim_whitespace`
unset, accepting exactly "paris". -/
def exFibQuestion : Question :=
  { id := 11
    quiz_id := 1
    question_number := 1
    question_type := "fill_in_blank"
    answer_config := { correct := some (.l ["paris"]) }
    case_sensitive := true
    trim_whitespace := false }

/-- Settings with both quiz-normalization flags off. -/
def offSettings : Settings :=
  { QUIZ_TRIM_WHITESPACE := false, QUIZ_CASE_INSENSITIVE := false }

/-- A fill-in-blank question graded by the regex `ab+`. -/
def exRegexQuestion : Question :=
  { id := 12
    quiz_id := 1
    question_number := 1
    question_type := "fill_in_blank"
    answer_config := { correct := some (.l ["ab"]), regex := some "ab+" } }

/-- A multiple-choice question with correct option "Paris". -/
def exMcQuestion : Question :=
  { id := 13
    quiz_id := 1
    question_number := 1
    question_type := "multiple_choice"
    answer_config := { correct := some (.s "Paris") } }

/-- A progress row that is already completed. -/
def exProgress : Progress :=
  { user_id := 1
    chapter_id := 2
    is_completed := true
    completed_at := some 50
    time_spent_seconds := 30
    last_accessed_at := 60 }

/-! # Theorems -/

/-! ## Regular-expression matcher correctness -/

theorem rxMatch_nil_nullable {ci : Bool} {r : Rx} {s : List Char}
    (h : RxMatch ci r s) : s = [] → nullable r = true := by
  induction h with
  | eps => intro _; rfl
  | cls _ => intro hc; cases hc
  | cat _ _ ih1 ih2 =>
    intro hc
    rcases List.append_eq_nil.mp hc with ⟨h1, h2⟩
    simp [nullable, ih1 h1, ih2 h2]
  | altL _ ih => intro hc; simp [nullable, ih hc]
  | altR _ ih => intro hc; simp [nullable, ih hc]
  | starNil => intro _; rfl
  | starCons _ _ _ _ => intro _; rfl

theorem nullable_iff {ci : Bool} {r : Rx} : nullable r = true ↔ RxMatch ci r [] := by
  constructor
  · intro h
    induction r with
    | fail => simp [nullable] at h
    | eps => exact .eps
    | cls neg rs => simp [nullable] at h
    | cat a b iha ihb =>
      simp only [nullable, Bool.and_eq_true] at h
      exact RxMatch.cat (iha h.1) (ihb h.2)
    | alt a b iha ihb =>
      simp only [nullable, Bool.or_eq_true] at h
      rcases h with h | h
      · exact .altL (iha h)
      · exact .altR (ihb h)
    | star a _ => exact .starNil
  · intro h
    exact rxMatch_nil_nullable h rfl

theorem rxMatch_cons_deriv {ci : Bool} {r : Rx} {x : List Char}
    (h : RxMatch ci r x) : ∀ c s, x = c :: s → RxMatch ci (rderiv ci c r) s := by
  induction h with
  | eps => intro c s hc; cases hc
  | cls hm =>
    intro c s hc
    injection hc with h1 h2
    subst h1
    subst h2
    simpa [rderiv, hm] using RxMatch.eps
  | cat h1 h2 ih1 ih2 =>
    intro c s hc
    rename_i a b u v
    cases u with
    | nil =>
      have hna : nullable a = true := rxMatch_nil_nullable h1 rfl
      simp only [List.nil_append] at hc
      simp only [rderiv, hna, if_true]
      exact RxMatch.altR (ih2 c s hc)
    | cons u0 u' =>
      simp only [List.cons_append, List.cons.injEq] at hc
      obtain ⟨rfl, rfl⟩ := hc
      have hd := ih1 u0 u' rfl
      simp only [rderiv]
      split
      · exact RxMatch.altL (RxMatch.cat hd h2)
      · exact RxMatch.cat hd h2
  | altL h1 ih =>
    intro c s hc
    exact RxMatch.altL (ih c s hc)
  | altR h1 ih =>
    intro c s hc
    exact RxMatch.altR (ih c s hc)
  | starNil => intro c s hc; cases hc
  | starCons h1 h2 ih1 ih2 =>
    intro c s hc
    rename_i a u v
    cases u with
    | nil =>
      simp only [List.nil_append] at hc
      exact ih2 c s hc
    | cons u0 u' =>
      simp only [List.cons_append, List.cons.injEq] at hc
      obtain ⟨rfl, rfl⟩ := hc
      exact RxMatch.cat (ih1 u0 u' rfl) h2

theorem deriv_rxMatch {ci : Bool} {c : Char} :
    ∀ {r : Rx} {s : List Char}, RxMatch ci (rderiv ci c r) s → RxMatch ci r (c :: s) := by
  intro r
  induction r with
  | fail => intro s h; cases h
  | eps => intro s h; cases h
  | cls neg rs =>
    intro s h
    by_cases hm : clsMatch ci neg rs c = true
    · rw [rderiv, if_pos hm] at h
      cases h
      exact RxMatch.cls hm
    · rw [rderiv, if_neg hm] at h
      cases h
  | cat a b iha ihb =>
    intro s h
    by_cases hna : nullable a = true
    · rw [rderiv, if_pos hna] at h
      cases h with
      | altL h1 =>
        cases h1 with
        | cat h2 h3 => exact RxMatch.cat (iha h2) h3
      | altR h1 =>
        have h0 : RxMatch ci a [] := nullable_iff.mp hna
        exact RxMatch.cat h0 (ihb h1)
    · rw [rderiv, if_neg hna] at h
      cases h with
      | cat h2 h3 => exact RxMatch.cat (iha h2) h3
  | alt a b iha ihb =>
    intro s h
    cases h with
    | altL h1 => exact RxMatch.altL (iha h1)
    | altR h1 => exact RxMatch.altR (ihb h1)
  | star a iha =>
    intro s h
    rw [rderiv] at h
    cases h with
    | cat h1 h2 => exact RxMatch.starCons (iha h1) h2

theorem rmatchStart_iff {ci : Bool} {s : List Char} :
    ∀ {r : Rx}, rmatchStart ci r s = true ↔
      ∃ p q : List Char, s = p ++ q ∧ RxMatch ci r p := by
  induction s with
  | nil =>
    intro r
    simp only [rmatchStart]
    constructor
    · intro h
      exact ⟨[], [], rfl, nullable_iff.mp h⟩
    · rintro ⟨p, q, hpq, hm⟩
      rcases List.append_eq_nil.mp hpq.symm with ⟨rfl, rfl⟩
      exact nullable_iff.mpr hm
  | cons c cs ih =>
    intro r
    simp only [rmatchStart, Bool.or_eq_true]
    constructor
    · rintro (h | h)
      · exact ⟨[], c :: cs, rfl, nullable_iff.mp h⟩
      · obtain ⟨p, q, hpq, hm⟩ := ih.mp h
        exact ⟨c :: p, q, by simp [hpq], deriv_rxMatch hm⟩
    · rintro ⟨p, q, hpq, hm⟩
      cases p with
      | nil =>
        exact Or.inl (nullable_iff.mpr (by simpa using hm))
      | cons p0 p' =>
        simp only [List.cons_append, List.cons.injEq] at hpq
        obtain ⟨rfl, rfl⟩ := hpq
        exact Or.inr (ih.mpr ⟨p', q, rfl, rxMatch_cons_deriv hm c p' rfl⟩)

/-! ## Bounds on the binary64 rounding model -/

theorem roundNE_le (q : ℚ) : (roundNE q : ℚ) ≤ q + 1 / 2 := by
  have h1 : ((⌊q⌋ : ℤ) : ℚ) ≤ q := Int.floor_le q
  have h2 : q < (⌊q⌋ : ℚ) + 1 := Int.lt_floor_add_one q
  unfold roundNE
  split_ifs with hlt hgt hev <;> push_cast <;> linarith

theorem le_roundNE (q : ℚ) : q - 1 / 2 ≤ (roundNE q : ℚ) := by
  have h1 : ((⌊q⌋ : ℤ) : ℚ) ≤ q := Int.floor_le q
  have h2 : q < (⌊q⌋ : ℚ) + 1 := Int.lt_floor_add_one q
  unfold roundNE
  split_ifs with hlt hgt hev <;> push_cast <;> linarith

theorem floatRound_nonpos {q : ℚ} (hq : q ≤ 0) : floatRound q = 0 := by
  unfold floatRound
  rw [if_pos hq]

theorem floatRound_le {q : ℚ} (hq : 0 < q) :
    floatRound q ≤ q + q * 2 ^ (-53 : ℤ) := by
  unfold floatRound
  rw [if_neg (not_le.mpr hq)]
  have hpk : (0 : ℚ) < 2 ^ (52 - Int.log 2 q) := zpow_pos (by norm_num) _
  rw [div_le_iff hpk]
  have hup := roundNE_le (q * 2 ^ (52 - Int.log 2 q))
  have h2e : (2 : ℚ) ^ Int.log 2 q ≤ q := by
    exact_mod_cast Int.zpow_log_le_self (b := 2) (by norm_num) hq
  have hkey : (1 : ℚ) / 2 ≤ q * 2 ^ (-53 : ℤ) * 2 ^ (52 - Int.log 2 q) := by
    have hstep : (2 : ℚ) ^ Int.log 2 q * 2 ^ (-53 : ℤ) * 2 ^ (52 - Int.log 2 q)
        = 2 ^ (-1 : ℤ) := by
      rw [← zpow_add₀ (two_ne_zero), ← zpow_add₀ (two_ne_zero)]
      congr 1
      ring
    have hp1 : (0 : ℚ) < 2 ^ (-53 : ℤ) := zpow_pos (by norm_num) _
    have hmono :=
      mul_le_mul_of_nonneg_right (mul_le_mul_of_nonneg_right h2e hp1.le) hpk.le
    rw [hstep] at hmono
    calc (1 : ℚ) / 2 = 2 ^ (-1 : ℤ) := by norm_num
    _ ≤ _ := hmono
  calc (roundNE (q * 2 ^ (52 - Int.log 2 q)) : ℚ)
      ≤ q * 2 ^ (52 - Int.log 2 q) + 1 / 2 := hup
    _ ≤ q * 2 ^ (52 - Int.log 2 q) + q * 2 ^ (-53 : ℤ) * 2 ^ (52 - Int.log 2 q) := by
        linarith
    _ = (q + q * 2 ^ (-53 : ℤ)) * 2 ^ (52 - Int.log 2 q) := by ring

theorem le_floatRound {q : ℚ} (hq : 0 < q) :
    q - q * 2 ^ (-53 : ℤ) ≤ floatRound q := by
  unfold floatRound
  rw [if_neg (not_le.mpr hq)]
  have hpk : (0 : ℚ) < 2 ^ (52 - Int.log 2 q) := zpow_pos (by norm_num) _
  rw [le_div_iff hpk]
  have hlo := le_roundNE (q * 2 ^ (52 - Int.log 2 q))
  have h2e : (2 : ℚ) ^ Int.log 2 q ≤ q := by
    exact_mod_cast Int.zpow_log_le_self (b := 2) (by norm_num) hq
  have hkey : (1 : ℚ) / 2 ≤ q * 2 ^ (-53 : ℤ) * 2 ^ (52 - Int.log 2 q) := by
    have hstep : (2 : ℚ) ^ Int.log 2 q * 2 ^ (-53 : ℤ) * 2 ^ (52 - Int.log 2 q)
        = 2 ^ (-1 : ℤ) := by
      rw [← zpow_add₀ (two_ne_zero), ← zpow_add₀ (two_ne_zero)]
      congr 1
      ring
    have hp1 : (0 : ℚ) < 2 ^ (-53 : ℤ) := zpow_pos (by norm_num) _
    have hmono :=
      mul_le_mul_of_nonneg_right (mul_le_mul_of_nonneg_right h2e hp1.le) hpk.le
    rw [hstep] at hmono
    calc (1 : ℚ) / 2 = 2 ^ (-1 : ℤ) := by norm_num
    _ ≤ _ := hmono
  calc (q - q * 2 ^ (-53 : ℤ)) * 2 ^ (52 - Int.log 2 q)
      = q * 2 ^ (52 - Int.log 2 q) - q * 2 ^ (-53 : ℤ) * 2 ^ (52 - Int.log 2 q) := by ring
    _ ≤ q * 2 ^ (52 - Int.log 2 q) - 1 / 2 := by linarith
    _ ≤ (roundNE (q * 2 ^ (52 - Int.log 2 q)) : ℚ) := by linarith

theorem floatRound_nonneg {q : ℚ} (hq : 0 ≤ q) : 0 ≤ floatRound q := by
  rcases eq_or_lt_of_le hq with h | h
  · rw [floatRound_nonpos h.symm.le]
  · have := le_floatRound h
    have hε : (2 : ℚ) ^ (-53 : ℤ) ≤ 1 := by
      rw [show ((-53 : ℤ)) = -(53 : ℕ) by norm_num, zpow_neg, zpow_natCast]
      exact inv_le_one (by norm_num)
    nlinarith

theorem floatRound_pos {q : ℚ} (hq : 0 < q) : 0 < floatRound q := by
  have := le_floatRound hq
  have hε : (2 : ℚ) ^ (-53 : ℤ) < 1 := by
    rw [show ((-53 : ℤ)) = -(53 : ℕ) by norm_num, zpow_neg, zpow_natCast]
    exact inv_lt_one (by norm_num)
  nlinarith

theorem pyScore_zero (tp : Nat) : pyScore 0 tp = 0 := by
  unfold pyScore
  split_ifs with htp
  · rw [show ((0 : Nat) : ℚ) / (tp : ℚ) = 0 by simp]
    rw [floatRound_nonpos le_rfl, zero_mul, floatRound_nonpos le_rfl]
    simp
  · rfl

theorem pyScore_le_100 {pe tp : Nat} (h : pe ≤ tp) : pyScore pe tp ≤ 100 := by
  unfold pyScore
  split_ifs with htp
  · set x : ℚ := (pe : ℚ) / (tp : ℚ) with hx
    have htp0 : (0 : ℚ) < (tp : ℚ) := by exact_mod_cast htp
    have hx1 : x ≤ 1 := by
      rw [hx, div_le_one htp0]
      exact_mod_cast h
    have hε : (2 : ℚ) ^ (-53 : ℤ) = 1 / 2 ^ 53 := by
      rw [show ((-53 : ℤ)) = -(53 : ℕ) by norm_num, zpow_neg, zpow_natCast]
      rw [one_div]
    rcases Nat.eq_zero_or_pos pe with hpe | hpe
    · subst hpe
      have hx0 : x = 0 := by
        rw [hx]
        simp
      rw [hx0]
      rw [floatRound_nonpos le_rfl]
      norm_num [floatRound_nonpos]
    · have hx0 : 0 < x := by
        rw [hx]
        positivity
      have hs1le : floatRound x ≤ x + x * 2 ^ (-53 : ℤ) := floatRound_le hx0
      have hs1pos : 0 < floatRound x := floatRound_pos hx0
      have hs1b : floatRound x ≤ 1 + 2 ^ (-53 : ℤ) := by
        have : x * 2 ^ (-53 : ℤ) ≤ 1 * 2 ^ (-53 : ℤ) := by
          have : (0:ℚ) < 2 ^ (-53 : ℤ) := zpow_pos (by norm_num) _
          nlinarith
        linarith
      have hm0 : 0 < floatRound x * 100 := by positivity
      have hs2le : floatRound (floatRound x * 100)
          ≤ floatRound x * 100 + floatRound x * 100 * 2 ^ (-53 : ℤ) := floatRound_le hm0
      have hfin : floatRound (floatRound x * 100) < 101 := by
        rw [hε] at hs1b hs2le
        nlinarith
      have hfl : ⌊floatRound (floatRound x * 100)⌋ < 101 := by
        exact Int.floor_lt.mpr (by exact_mod_cast hfin)
      omega
  · exact Nat.zero_le 100

/-! ## Structure of `gradeAll` and `submit_quiz` -/

theorem gradeAll_fst {st : Settings} {answers : List (Int × String)} :
    ∀ {qs : List Question} {graded}, gradeAll st qs answers = some graded →
      graded.map (fun g => g.1) = qs := by
  intro qs
  induction qs with
  | nil =>
    intro graded h
    simp only [gradeAll, List.mapM_nil, pure, Option.some.injEq] at h
    subst h
    rfl
  | cons q qs ih =>
    intro graded h
    simp only [gradeAll, List.mapM_cons] at h ih
    cases hg : grade_answer st q (userAnswerFor answers q) with
    | none => rw [hg] at h; simp at h
    | some r =>
      rw [hg] at h
      cases hrest : List.mapM (fun q =>
          (grade_answer st q (userAnswerFor answers q)).map fun r => (q, r)) qs with
      | none => rw [hrest] at h; simp at h
      | some gs =>
        rw [hrest] at h
        simp only [Option.pure_def, Option.bind_eq_bind, Option.map_some',
          Option.some_bind, Option.some.injEq] at h
        subst h
        simp [ih hrest]

theorem gradeAll_mem {st : Settings} {answers : List (Int × String)} :
    ∀ {qs : List Question} {graded}, gradeAll st qs answers = some graded →
      ∀ g ∈ graded, g.1 ∈ qs ∧
        grade_answer st g.1 (userAnswerFor answers g.1) = some g.2 := by
  intro qs
  induction qs with
  | nil =>
    intro graded h g hg
    simp only [gradeAll, List.mapM_nil, pure, Option.some.injEq] at h
    subst h
    cases hg
  | cons q qs ih =>
    intro graded h g hg
    simp only [gradeAll, List.mapM_cons] at h ih
    cases hq : grade_answer st q (userAnswerFor answers q) with
    | none => rw [hq] at h; simp at h
    | some r =>
      rw [hq] at h
      cases hrest : List.mapM (fun q =>
          (grade_answer st q (userAnswerFor answers q)).map fun r => (q, r)) qs with
      | none => rw [hrest] at h; simp at h
      | some gs =>
        rw [hrest] at h
        simp only [Option.pure_def, Option.bind_eq_bind, Option.map_some',
          Option.some_bind, Option.some.injEq] at h
        subst h
        rcases List.mem_cons.mp hg with rfl | hmem
        · exact ⟨List.mem_cons_self q qs, by simpa using hq⟩
        · rcases ih hrest g hmem with ⟨h1, h2⟩
          exact ⟨List.mem_cons_of_mem q h1, h2⟩

theorem sum_points_filter_le (p : Question × Bool × String × String → Bool) :
    ∀ l : List (Question × Bool × String × String),
      ((l.filter p).map fun g => g.1.points).sum ≤ (l.map fun g => g.1.points).sum := by
  intro l
  induction l with
  | nil => simp
  | cons g l ih =>
    simp only [List.filter_cons]
    split
    · simp only [List.map_cons, List.sum_cons]
      omega
    · simp only [List.map_cons, List.sum_cons]
      omega

theorem submit_quiz_ok {st : Settings} {db : Db} {u qz : Int}
    {ans : List (Int × String)} {res : SubmitResult} {db' : Db}
    (h : submit_quiz st db u qz ans = (.ok res, db')) :
    ∃ quiz graded,
      db.quizzes.find? (fun z => z.id == qz) = some quiz ∧
      gradeAll st (get_quiz_questions db qz) ans = some graded ∧
      res = submitResult db u qz ans quiz graded ∧
      db' = { db with attempts :=
        db.attempts ++ [submitAttempt db u qz ans quiz graded] } := by
  unfold submit_quiz at h
  split at h
  · exact absurd h (by simp)
  · rename_i quiz hfind
    split_ifs at h with h1 h2
    · exact absurd h (by simp)
    · exact absurd h (by simp)
    · split at h
      · exact absurd h (by simp)
      · rename_i graded hg
        simp only [Prod.mk.injEq, Except.ok.injEq] at h
        exact ⟨quiz, graded, hfind, hg, h.1.symm, h.2.symm⟩

theorem submit_quiz_error_db {st : Settings} {db : Db} {u qz : Int}
    {ans : List (Int × String)} {e : SubmitError} {db' : Db}
    (h : submit_quiz st db u qz ans = (.error e, db')) : db' = db := by
  unfold submit_quiz at h
  split at h
  · simp only [Prod.mk.injEq] at h
    exact h.2.symm
  · split_ifs at h with h1 h2
    · simp only [Prod.mk.injEq] at h
      exact h.2.symm
    · simp only [Prod.mk.injEq] at h
      exact h.2.symm
    · split at h
      · simp only [Prod.mk.injEq] at h
        exact h.2.symm
      · exact absurd h (by simp)

theorem get_user_attempt_count_append (db : Db) (att : QuizAttempt) (u qz : Int) :
    get_user_attempt_count { db with attempts := db.attempts ++ [att] } u qz =
      get_user_attempt_count db u qz +
        (if att.user_id = u ∧ att.quiz_id = qz then 1 else 0) := by
  unfold get_user_attempt_count
  simp only [List.filter_append, List.length_append]
  by_cases hc : att.user_id = u ∧ att.quiz_id = qz
  · rw [if_pos hc]
    have hb : (att.user_id == u && att.quiz_id == qz) = true := by
      simp [hc.1, hc.2]
    simp [List.filter, hb]
  · rw [if_neg hc]
    have hb : (att.user_id == u && att.quiz_id == qz) = false := by
      rcases Bool.eq_false_or_eq_true (att.user_id == u && att.quiz_id == qz) with hb | hb
      · exact absurd (by simpa [Bool.and_eq_true, beq_iff_eq] using hb) hc
      · exact hb
    simp [List.filter, hb]

theorem attemptNumbers_append (db : Db) (att : QuizAttempt) (u qz : Int) :
    attemptNumbers { db with attempts := db.attempts ++ [att] } u qz =
      attemptNumbers db u qz ++
        (if att.user_id = u ∧ att.quiz_id = qz then [att.attempt_number] else []) := by
  unfold attemptNumbers
  simp only [List.filter_append, List.map_append]
  by_cases hc : att.user_id = u ∧ att.quiz_id = qz
  · rw [if_pos hc]
    have hb : (att.user_id == u && att.quiz_id == qz) = true := by
      simp [hc.1, hc.2]
    simp [List.filter, hb]
  · rw [if_neg hc]
    have hb : (att.user_id == u && att.quiz_id == qz) = false := by
      rcases Bool.eq_false_or_eq_true (att.user_id == u && att.quiz_id == qz) with hb | hb
      · exact absurd (by simpa [Bool.and_eq_true, beq_iff_eq] using hb) hc
      · exact hb
    simp [List.filter, hb]

theorem submitAttempt_fields (db : Db) (u qz : Int) (ans : List (Int × String))
    (quiz : Quiz) (graded : List (Question × Bool × String × String)) :
    (submitAttempt db u qz ans quiz graded).user_id = u ∧
    (submitAttempt db u qz ans quiz graded).quiz_id = qz ∧
    (submitAttempt db u qz ans quiz graded).attempt_number =
      get_user_attempt_count db u qz + 1 :=
  ⟨rfl, rfl, rfl⟩

theorem wellNumbered_submit {st : Settings} {db : Db} {u qz : Int}
    {ans : List (Int × String)} (h : WellNumbered db) :
    WellNumbered (submit_quiz st db u qz ans).2 := by
  rcases hres : submit_quiz st db u qz ans with ⟨r, db'⟩
  cases r with
  | error e =>
    have hdb : db' = db := submit_quiz_error_db hres
    subst hdb
    exact h
  | ok res =>
    obtain ⟨quiz, graded, _, _, _, hdb'⟩ := submit_quiz_ok hres
    subst hdb'
    intro u' qz'
    rw [attemptNumbers_append, get_user_attempt_count_append]
    obtain ⟨ha1, ha2, ha3⟩ := submitAttempt_fields db u qz ans quiz graded
    by_cases hc : (submitAttempt db u qz ans quiz graded).user_id = u' ∧
        (submitAttempt db u qz ans quiz graded).quiz_id = qz'
    · rw [if_pos hc, if_pos hc, h u' qz', ha3]
      obtain ⟨rfl, rfl⟩ : u = u' ∧ qz = qz' := by
        constructor
        · rw [← ha1, hc.1]
        · rw [← ha2, hc.2]
      rw [List.range'_concat]
      simp
      omega
    · rw [if_neg hc, if_neg hc, h u' qz']
      simp

theorem wellNumbered_runSubmits {st : Settings} :
    ∀ (reqs : List SubmitReq) (db : Db), WellNumbered db →
      WellNumbered (runSubmits st reqs db) := by
  intro reqs
  induction reqs with
  | nil => intro db h; exact h
  | cons r rs ih =>
    intro db h
    exact ih _ (wellNumbered_submit h)

/-! ## Sorting of activity dates -/

theorem insertDesc_perm (x : Int) : ∀ l : List Int, (insertDesc x l).Perm (x :: l) := by
  intro l
  induction l with
  | nil => exact List.Perm.refl _
  | cons y ys ih =>
    unfold insertDesc
    split
    · exact List.Perm.refl _
    · exact (ih.cons y).trans (List.Perm.swap x y ys)

theorem sortDesc_perm : ∀ l : List Int, (sortDesc l).Perm l := by
  intro l
  induction l with
  | nil => exact List.Perm.refl _
  | cons x xs ih => exact (insertDesc_perm x (sortDesc xs)).trans (ih.cons x)

theorem mem_sortDesc {a : Int} {l : List Int} : a ∈ sortDesc l ↔ a ∈ l :=
  (sortDesc_perm l).mem_iff

theorem pairwise_insertDesc {x : Int} :
    ∀ {l : List Int}, l.Pairwise (fun a b => b ≤ a) →
      (insertDesc x l).Pairwise (fun a b => b ≤ a) := by
  intro l
  induction l with
  | nil => intro _; simp [insertDesc]
  | cons y ys ih =>
    intro h
    rw [List.pairwise_cons] at h
    unfold insertDesc
    split
    · rename_i hyx
      rw [List.pairwise_cons]
      refine ⟨?_, List.pairwise_cons.mpr h⟩
      intro b hb
      rcases List.mem_cons.mp hb with rfl | hb
      · exact hyx
      · exact le_trans (h.1 b hb) hyx
    · rename_i hyx
      rw [List.pairwise_cons]
      refine ⟨?_, ih h.2⟩
      intro b hb
      rcases List.mem_cons.mp ((insertDesc_perm x ys).mem_iff.mp hb) with rfl | hb
      · omega
      · exact h.1 b hb

theorem pairwise_sortDesc : ∀ l : List Int, (sortDesc l).Pairwise (fun a b => b ≤ a) := by
  intro l
  induction l with
  | nil => simp [sortDesc]
  | cons x xs ih => exact pairwise_insertDesc ih

theorem mem_sortedDates {a : Int} {l : List Int} : a ∈ sortedDates l ↔ a ∈ l := by
  unfold sortedDates
  rw [mem_sortDesc, List.mem_dedup]

theorem sortedDates_nodup (l : List Int) : (sortedDates l).Nodup :=
  ((sortDesc_perm l.dedup).nodup_iff).mpr (List.nodup_dedup l)

theorem sortedDates_cons_max {l : List Int} {d0 : Int} {rest : List Int}
    (h : sortedDates l = d0 :: rest) : d0 ∈ l ∧ ∀ a ∈ l, a ≤ d0 := by
  constructor
  · rw [← mem_sortedDates (l := l), h]
    exact List.mem_cons_self d0 rest
  · intro a ha
    have hmem : a ∈ d0 :: rest := by
      rw [← h]
      exact mem_sortedDates.mpr ha
    rcases List.mem_cons.mp hmem with rfl | hmem
    · exact le_refl a
    · have hp := pairwise_sortDesc l.dedup
      rw [show sortDesc l.dedup = sortedDates l from rfl, h, List.pairwise_cons] at hp
      exact hp.1 a hmem

theorem sortedDates_ne_nil {l : List Int} (h : l ≠ []) : sortedDates l ≠ [] := by
  cases l with
  | nil => exact absurd rfl h
  | cons x xs =>
    intro hc
    have : x ∈ sortedDates (x :: xs) := mem_sortedDates.mpr (List.mem_cons_self x xs)
    rw [hc] at this
    cases this

theorem sortedDates_all_eq {l : List Int} {t : Int} (hne : l ≠ [])
    (h : ∀ a ∈ l, a = t) : sortedDates l = [t] := by
  cases hs : sortedDates l with
  | nil => exact absurd hs (sortedDates_ne_nil hne)
  | cons d0 rest =>
    have hd0 : d0 = t := h d0 ((sortedDates_cons_max hs).1)
    subst hd0
    cases rest with
    | nil => rfl
    | cons d1 rest' =>
      have hn := sortedDates_nodup l
      rw [hs, List.nodup_cons] at hn
      have hd1 : d1 ∈ l := by
        rw [← mem_sortedDates (l := l), hs]
        exact List.mem_cons_of_mem _ (List.mem_cons_self d1 rest')
      have : d1 = d0 := h d1 hd1
      exact absurd (this ▸ List.mem_cons_self d1 rest') hn.1

/-! ## Claim C10 -/

/-- C10: for a user with no progress records (an empty activity history),
`calculate_streak` returns a zero current streak, a zero longest streak, no
last activity date, and status "broken", rather than failing. -/
theorem calculate_streak_empty_history (today : Int) :
    calculate_streak [] today =
      { current_streak := 0
        longest_streak := 0
        last_activity_date := none
        streak_status := "broken"
        days_until_broken := none } := rfl

/-! ## Claim C7 -/

/-- C7: `mark_chapter_complete` is idempotent on completion state: on a row
already completed, a further call leaves `completed_at` untouched and
`is_completed` true, while `time_spent_seconds` grows by the supplied amount
and `last_accessed_at` advances to the call time. -/
theorem mark_chapter_complete_idem (p : Progress) (u c : Int)
    (t : Option Int) (now : Int) (h : p.is_completed = true) :
    (mark_chapter_complete (some p) u c t now).completed_at = p.completed_at ∧
    (mark_chapter_complete (some p) u c t now).is_completed = true ∧
    (mark_chapter_complete (some p) u c t now).time_spent_seconds
      = p.time_spent_seconds + t.getD 0 ∧
    (mark_chapter_complete (some p) u c t now).last_accessed_at = now := by
  unfold mark_chapter_complete
  rcases t with _ | v
  · simp [pyTruthy, h]
  · by_cases hv : v = 0
    · subst hv
      simp [pyTruthy, h]
    · simp [pyTruthy, hv, h]

/-- Witness for C7 at a concrete completed row. -/
theorem mark_chapter_complete_idem_witness :
    (mark_chapter_complete (some exProgress) 1 2 (some 40) 70).completed_at
      = exProgress.completed_at ∧
    (mark_chapter_complete (some exProgress) 1 2 (some 40) 70).is_completed = true ∧
    (mark_chapter_complete (some exProgress) 1 2 (some 40) 70).time_spent_seconds
      = exProgress.time_spent_seconds + (some (40 : Int)).getD 0 ∧
    (mark_chapter_complete (some exProgress) 1 2 (some 40) 70).last_accessed_at = 70 :=
  mark_chapter_complete_idem exProgress 1 2 (some 40) 70 rfl

/-! ## Claim C3 -/

/-- C3: when the count of prior attempts reaches `quiz.max_attempts`,
`submit_quiz` fails with the attempts-exhausted error and the attempt history
(the whole database) is returned unchanged: no record is persisted. -/
theorem submit_attempts_exhausted (st : Settings) (db : Db) (u qz : Int)
    (ans : List (Int × String)) (quiz : Quiz)
    (hfind : db.quizzes.find? (fun z => z.id == qz) = some quiz)
    (hpub : quiz.is_published = true)
    (hmax : quiz.max_attempts ≤ get_user_attempt_count db u qz) :
    submit_quiz st db u qz ans = (.error .attemptsExhausted, db) := by
  unfold submit_quiz
  rw [hfind]
  simp only [hpub, Bool.not_true, Bool.false_eq_true, if_false, if_pos hmax]

/-- Witness for C3: user 7 has two recorded attempts on a quiz capped at
two. -/
theorem submit_attempts_exhausted_witness :
    submit_quiz defaultSettings exDbFull 7 1 [] = (.error .attemptsExhausted, exDbFull) :=
  submit_attempts_exhausted defaultSettings exDbFull 7 1 [] exQuiz (by decide) rfl
    (by decide)

/-! ## Claim C6 -/

theorem calculate_streak_cons {dates : List Int} {today d0 : Int} {rest : List Int}
    (hie : dates.isEmpty = false) (hsd : sortedDates dates = d0 :: rest) :
    calculate_streak dates today =
      { current_streak := if today - 1 ≤ d0 then 1 + streakWalk d0 rest else 0
        longest_streak := max (max (longestScan (d0 :: rest) 1 0).1
            (longestScan (d0 :: rest) 1 0).2)
          (if today - 1 ≤ d0 then 1 + streakWalk d0 rest else 0)
        last_activity_date := some d0
        streak_status := if today - d0 = 0 then "active"
          else if today - d0 = 1 then "at_risk" else "broken"
        days_until_broken := if today - d0 = 0 then some 1
          else if today - d0 = 1 then some 0 else none } := by
  unfold calculate_streak
  rw [hie, if_neg Bool.false_ne_true, hsd]
  dsimp only
  split_ifs <;> rfl

/-- C6: for every non-empty activity history, with `M` the most recent local
activity date, `days_since_activity = today - M` determines the status:
`0` gives "active", `1` gives "at_risk", and `2` or more gives "broken" with
`current_streak = 0`; a history whose only activity day is today gives
`current_streak = 1` and status "active". -/
theorem calculate_streak_status_boundaries (dates : List Int) (today M : Int)
    (hne : dates ≠ []) (hM : M ∈ dates) (hmax : ∀ d ∈ dates, d ≤ M) :
    ((today - M = 0 → (calculate_streak dates today).streak_status = "active") ∧
     (today - M = 1 → (calculate_streak dates today).streak_status = "at_risk") ∧
     (2 ≤ today - M → (calculate_streak dates today).streak_status = "broken" ∧
       (calculate_streak dates today).current_streak = 0)) ∧
    ((∀ d ∈ dates, d = today) →
      (calculate_streak dates today).current_streak = 1 ∧
      (calculate_streak dates today).streak_status = "active") := by
  have hie : dates.isEmpty = false := by
    cases dates
    · exact absurd rfl hne
    · rfl
  obtain ⟨d0, rest, hsd⟩ : ∃ d0 rest, sortedDates dates = d0 :: rest := by
    cases hs : sortedDates dates with
    | nil => exact absurd hs (sortedDates_ne_nil hne)
    | cons a b => exact ⟨a, b, rfl⟩
  obtain ⟨hd0mem, hd0max⟩ := sortedDates_cons_max hsd
  have hd0 : d0 = M := le_antisymm (hmax d0 hd0mem) (hd0max M hM)
  subst hd0
  rw [calculate_streak_cons hie hsd]
  constructor
  · refine ⟨?_, ?_, ?_⟩
    · intro hd
      show (if today - d0 = 0 then "active"
        else if today - d0 = 1 then "at_risk" else "broken") = "active"
      rw [if_pos hd]
    · intro hd
      show (if today - d0 = 0 then "active"
        else if today - d0 = 1 then "at_risk" else "broken") = "at_risk"
      rw [if_neg (by omega), if_pos hd]
    · intro hd
      constructor
      · show (if today - d0 = 0 then "active"
          else if today - d0 = 1 then "at_risk" else "broken") = "broken"
        rw [if_neg (by omega), if_neg (by omega)]
      · show (if today - 1 ≤ d0 then 1 + streakWalk d0 rest else 0) = 0
        rw [if_neg (by omega)]
  · intro hall
    have hsingle : sortedDates dates = [today] := sortedDates_all_eq hne hall
    rw [hsingle] at hsd
    injection hsd with h1 h2
    subst h1
    subst h2
    constructor
    · show (if today - 1 ≤ today then 1 + streakWalk today [] else 0) = 1
      rw [if_pos (by omega)]
      rfl
    · show (if today - today = 0 then "active"
        else if today - today = 1 then "at_risk" else "broken") = "active"
      rw [if_pos (by omega)]

/-- Witness for C6 at the concrete history whose only activity day is
today. -/
theorem calculate_streak_status_boundaries_witness :
    (((100 : Int) - 100 = 0 → (calculate_streak [100] 100).streak_status = "active") ∧
     ((100 : Int) - 100 = 1 → (calculate_streak [100] 100).streak_status = "at_risk") ∧
     (2 ≤ (100 : Int) - 100 → (calculate_streak [100] 100).streak_status = "broken" ∧
       (calculate_streak [100] 100).current_streak = 0)) ∧
    ((∀ d ∈ ([100] : List Int), d = 100) →
      (calculate_streak [100] 100).current_streak = 1 ∧
      (calculate_streak [100] 100).streak_status = "active") :=
  calculate_streak_status_boundaries [100] 100 100 (by decide)
    (List.mem_cons_self 100 []) (by
      intro d hd
      rcases List.mem_cons.mp hd with rfl | hd
      · exact le_refl _
      · cases hd)


/-! ## Claim C1 -/

theorem contains_eq_false_of_not_mem {α : Type} [BEq α] [LawfulBEq α]
    {l : List α} {a : α} (h : a ∉ l) : l.contains a = false := by
  rw [show l.contains a = l.elem a from rfl, List.elem_eq_mem]
  simp [h]

theorem fib_empty_incorrect (st : Settings) (q : Question) (l : List String)
    (hl : fibCorrectList q.answer_config.correct = some l)
    (hrx : ∀ pat, q.answer_config.regex = some pat → pat ≠ "" →
      ∀ r, compileRx pat = some r → nullable r = false)
    (hm1 : "" ∉ l) (hm2 : "" ∉ l.map pyLower) :
    (grade_fill_in_blank st q "").map (fun r => r.1) = some false := by
  unfold grade_fill_in_blank
  rw [hl]
  simp only [Option.map_some', Option.some.injEq]
  rw [show pyStrip "" = "" from rfl, ite_self, show pyLower "" = "" from rfl, ite_self]
  have hcn : (if !q.case_sensitive || st.QUIZ_CASE_INSENSITIVE then List.map pyLower l
      else l).contains "" = false := by
    split_ifs
    · exact contains_eq_false_of_not_mem hm2
    · exact contains_eq_false_of_not_mem hm1
  cases hreg : q.answer_config.regex with
  | none => exact hcn
  | some pat =>
    by_cases hpat : pat = ""
    · subst hpat
      show (if ("" : String) ≠ "" then _ else _) = false
      rw [if_neg (by simp)]
      exact hcn
    · show (if pat ≠ "" then _ else _) = false
      rw [if_pos hpat]
      cases hcr : compileRx pat with
      | none => rfl
      | some r =>
        show nullable r = false
        exact hrx pat hreg hpat r hcr

/-- C1 as stated is false: for a true/false question whose configured correct
value normalizes to `false`, the missing answer (empty string) also
normalizes to `false` under the fail-closed lexicon and is graded CORRECT. -/
theorem grade_empty_answer_counterexample :
    grade_answer defaultSettings exTfQuestion "" = some (true, "false", "") := by
  decide

/-- C1 amended: in `submit_quiz` a question whose id is absent from the
answer map is graded with the empty string; the empty string is graded
incorrect provided the configuration does not itself accept it — the
multiple-choice correct option must be non-blank, the true/false correct
value must normalize to `true` (one that normalizes to `false` matches the
fail-closed empty answer and grades correct), and a fill-in-blank
configuration must reject the empty word both by regex and by accepted
list. -/
theorem grade_missing_answer (st : Settings) (q : Question)
    (answers : List (Int × String)) (hmiss : answers.lookup q.id = none)
    (hmc : q.question_type = "multiple_choice" →
      ∃ v, q.answer_config.correct = some (.s v) ∧ pyLower (pyStrip v) ≠ "")
    (htf : q.question_type = "true_false" →
      normalize_boolean (pyStrOfCorrect q.answer_config.correct) = true)
    (hfib : q.question_type = "fill_in_blank" → FibRejectsEmpty q) :
    userAnswerFor answers q = "" ∧
    (grade_answer st q (userAnswerFor answers q)).map (fun r => r.1) ≠ some true := by
  have hua : userAnswerFor answers q = "" := by
    unfold userAnswerFor
    rw [hmiss]
    rfl
  refine ⟨hua, ?_⟩
  rw [hua]
  unfold grade_answer
  by_cases h1 : q.question_type = "multiple_choice"
  · rw [if_pos h1]
    obtain ⟨v, hv, hne⟩ := hmc h1
    unfold grade_multiple_choice
    rw [hv]
    show ((some v).map _).map _ ≠ _
    simp only [Option.map_some', Option.some.injEq, ne_eq]
    intro hc
    rw [show pyLower (pyStrip "") = "" from rfl] at hc
    exact hne (eq_of_beq hc).symm
  · rw [if_neg h1]
    by_cases h2 : q.question_type = "true_false"
    · rw [if_pos h2]
      unfold grade_true_false
      simp only [Option.map_some', Option.some.injEq, ne_eq]
      intro hc
      rw [htf h2, show normalize_boolean "" = false by decide] at hc
      exact absurd (eq_of_beq hc) (by decide)
    · rw [if_neg h2]
      by_cases h3 : q.question_type = "fill_in_blank"
      · rw [if_pos h3]
        obtain ⟨hrx, hmem⟩ := hfib h3
        cases hl : fibCorrectList q.answer_config.correct with
        | none =>
          unfold grade_fill_in_blank
          rw [hl]
          simp
        | some l =>
          obtain ⟨hmem1, hmem2⟩ := hmem l hl
          rw [fib_empty_incorrect st q l hl hrx hmem1 hmem2]
          simp
      · rw [if_neg h3]
        simp

/-- Witness for C1 amended at a concrete multiple-choice question and an
answer map missing its id. -/
theorem grade_missing_answer_witness :
    userAnswerFor [(99, "x")] exMcQuestion = "" ∧
    (grade_answer defaultSettings exMcQuestion
        (userAnswerFor [(99, "x")] exMcQuestion)).map (fun r => r.1) ≠ some true :=
  grade_missing_answer defaultSettings exMcQuestion [(99, "x")] (by decide)
    (fun _ => ⟨"Paris", rfl, by decide⟩) (fun h => absurd h (by decide))
    (fun h => absurd h (by decide))

/-! ## Claim C2 -/

/-- C2 as stated is false: with the default process-wide settings
(`QUIZ_TRIM_WHITESPACE = QUIZ_CASE_INSENSITIVE = true`, config.py lines
100-101), a question with `case_sensitive = true` and
`trim_whitespace = false` still has its answer trimmed and case-folded:
`" PARIS "` grades correct against the accepted set `["paris"]`, although raw
membership (what the per-question flags demand) is false. -/
theorem fib_flags_counterexample :
    (grade_answer defaultSettings exFibQuestion " PARIS ").map (fun r => r.1)
      = some true ∧
    (["paris"] : List String).contains " PARIS " = false := by
  decide

/-- C2 amended: the per-question flags decide normalization only when the
process-wide settings are off; the settings are OR-ed with the per-question
flags (quiz_service.py lines 297 and 301), not a fallback.  With both
settings false, a fill-in-blank question without a regex, `case_sensitive`
true and `trim_whitespace` false is graded by raw membership of the
untrimmed, case-preserved user answer. -/
theorem fib_flags_decide_when_settings_off (st : Settings) (q : Question)
    (ua : String) (l : List String)
    (hs1 : st.QUIZ_TRIM_WHITESPACE = false) (hs2 : st.QUIZ_CASE_INSENSITIVE = false)
    (ht : q.question_type = "fill_in_blank")
    (hl : fibCorrectList q.answer_config.correct = some l)
    (hr : q.answer_config.regex = none)
    (hcs : q.case_sensitive = true) (htw : q.trim_whitespace = false) :
    (grade_answer st q ua).map (fun r => r.1) = some (l.contains ua) := by
  unfold grade_answer
  rw [if_neg (by rw [ht]; decide), if_neg (by rw [ht]; decide), if_pos ht]
  unfold grade_fill_in_blank
  rw [hl]
  simp only [Option.map_some', Option.some.injEq]
  rw [htw, hs1, hcs, hs2]
  cases hreg : q.answer_config.regex with
  | none => rfl
  | some pat => rw [hreg] at hr; cases hr

/-- Witness for C2 amended at the concrete question and answer of the
counterexample, with both settings off. -/
theorem fib_flags_decide_when_settings_off_witness :
    (grade_answer offSettings exFibQuestion " PARIS ").map (fun r => r.1)
      = some ((["paris"] : List String).contains " PARIS ") :=
  fib_flags_decide_when_settings_off offSettings exFibQuestion " PARIS " ["paris"]
    rfl rfl rfl rfl rfl rfl rfl

/-! ## Claim C8 -/

/-- C8 as stated is false: grading is not a function of the question and the
answer alone — the process-wide settings flow into fill-in-blank
normalization, so the same question and answer grade differently under
different settings (default settings vs. both normalization settings
off). -/
theorem grade_answer_settings_dependence_counterexample :
    grade_answer defaultSettings exFibQuestion " PARIS "
      ≠ grade_answer offSettings exFibQuestion " PARIS " := by
  decide

/-- C8 amended: grading is a pure function of the question, the user answer,
and the two process-wide normalization settings: any two settings agreeing on
`QUIZ_TRIM_WHITESPACE` and `QUIZ_CASE_INSENSITIVE` (whatever their other
fields) produce identical grading results, and for one fixed settings value
two runs are trivially identical — there is no randomness or other state. -/
theorem grade_answer_settings_extensional (st1 st2 : Settings) (q : Question)
    (ua : String)
    (h1 : st1.QUIZ_TRIM_WHITESPACE = st2.QUIZ_TRIM_WHITESPACE)
    (h2 : st1.QUIZ_CASE_INSENSITIVE = st2.QUIZ_CASE_INSENSITIVE) :
    grade_answer st1 q ua = grade_answer st2 q ua := by
  cases st1
  cases st2
  simp only at h1 h2
  subst h1
  subst h2
  rfl

/-- Witness for C8 amended: settings differing only in the passing-score
default grade identically. -/
theorem grade_answer_settings_extensional_witness :
    grade_answer defaultSettings exFibQuestion " PARIS "
      = grade_answer { defaultSettings with QUIZ_PASSING_SCORE := 50 }
          exFibQuestion " PARIS " :=
  grade_answer_settings_extensional defaultSettings
    { defaultSettings with QUIZ_PASSING_SCORE := 50 } exFibQuestion " PARIS " rfl rfl

/-! ## Claim C9 -/

/-- C9: for a fill-in-blank question with a configured non-empty regex,
correctness is exactly anchored-at-the-start matching of the (possibly
trimmed) user answer: the grade is the matcher verdict, and the matcher
verdict holds iff some prefix of the answer is in the language of the
compiled regex; when the regex fails to compile, the answer is graded
incorrect and grading still returns a normal result instead of raising. -/
theorem fib_regex_grading (st : Settings) (q : Question) (ua pat : String)
    (l : List String)
    (ht : q.question_type = "fill_in_blank")
    (hl : fibCorrectList q.answer_config.correct = some l)
    (hp : q.answer_config.regex = some pat) (hne : pat ≠ "") :
    (∀ r, compileRx pat = some r →
      (grade_answer st q ua).map (fun x => x.1)
        = some (rmatchStart (!q.case_sensitive) r (fibUserAnswer st q ua).data) ∧
      (rmatchStart (!q.case_sensitive) r (fibUserAnswer st q ua).data = true ↔
        ∃ p s : List Char, (fibUserAnswer st q ua).data = p ++ s ∧
          RxMatch (!q.case_sensitive) r p)) ∧
    (compileRx pat = none →
      (grade_answer st q ua).map (fun x => x.1) = some false) := by
  have hgrade : ∀ v, compileRx pat = v →
      (grade_answer st q ua).map (fun x => x.1)
        = some (match v with
            | some r => rmatchStart (!q.case_sensitive) r (fibUserAnswer st q ua).data
            | none => false) := by
    intro v hv
    unfold grade_answer
    rw [if_neg (by rw [ht]; decide), if_neg (by rw [ht]; decide), if_pos ht]
    unfold grade_fill_in_blank
    rw [hl]
    simp only [Option.map_some', Option.some.injEq]
    show (match q.answer_config.regex with
      | some pat =>
        if pat ≠ "" then
          match compileRx pat with
          | some r => rmatchStart (!q.case_sensitive) r (fibUserAnswer st q ua).data
          | none => false
        else _
      | none => _) = _
    rw [hp]
    show (if pat ≠ "" then _ else _) = _
    rw [if_pos hne, hv]
  constructor
  · intro r hr
    refine ⟨hgrade (some r) hr, ?_⟩
    exact rmatchStart_iff
  · intro hr
    exact hgrade none hr

/-- Witness for C9 at the concrete regex question (`ab+`) and the answer
"abbc". -/
theorem fib_regex_grading_witness :
    (∀ r, compileRx "ab+" = some r →
      (grade_answer defaultSettings exRegexQuestion "abbc").map (fun x => x.1)
        = some (rmatchStart (!exRegexQuestion.case_sensitive) r
            (fibUserAnswer defaultSettings exRegexQuestion "abbc").data) ∧
      (rmatchStart (!exRegexQuestion.case_sensitive) r
          (fibUserAnswer defaultSettings exRegexQuestion "abbc").data = true ↔
        ∃ p s : List Char,
          (fibUserAnswer defaultSettings exRegexQuestion "abbc").data = p ++ s ∧
          RxMatch (!exRegexQuestion.case_sensitive) r p)) ∧
    (compileRx "ab+" = none →
      (grade_answer defaultSettings exRegexQuestion "abbc").map (fun x => x.1)
        = some false) :=
  fib_regex_grading defaultSettings exRegexQuestion "abbc" "ab+" ["ab"] rfl rfl rfl
    (by decide)

/-! ## Claim C5 -/

theorem roundNE_intCast (z : ℤ) : roundNE (z : ℚ) = z := by
  unfold roundNE
  rw [Int.floor_intCast, sub_self, if_pos (by norm_num)]

theorem floatRound_natCast {n : ℕ} (h1 : 1 ≤ n) (h2 : n < 2 ^ 53) :
    floatRound (n : ℚ) = n := by
  have hq : (0 : ℚ) < (n : ℚ) := by exact_mod_cast h1
  unfold floatRound
  rw [if_neg (not_le.mpr hq)]
  have hlog : Int.log 2 ((n : ℕ) : ℚ) = (Nat.log 2 n : ℤ) := Int.log_natCast 2 n
  rw [hlog]
  have hle : Nat.log 2 n ≤ 52 := by
    have hlt : Nat.log 2 n < 53 := Nat.log_lt_of_lt_pow (by omega) h2
    omega
  have hk : (52 : ℤ) - (Nat.log 2 n : ℤ) = ((52 - Nat.log 2 n : ℕ) : ℤ) := by
    omega
  rw [hk, zpow_natCast]
  have hcast : (n : ℚ) * (2 : ℚ) ^ (52 - Nat.log 2 n)
      = (((n * 2 ^ (52 - Nat.log 2 n) : ℕ) : ℤ) : ℚ) := by
    push_cast
    ring
  rw [hcast, roundNE_intCast]
  push_cast
  rw [mul_div_assoc, div_self (by positivity), mul_one]

theorem pyScore_one_one : pyScore 1 1 = 100 := by
  unfold pyScore
  rw [if_pos (by norm_num)]
  rw [show ((1 : ℕ) : ℚ) / ((1 : ℕ) : ℚ) = ((1 : ℕ) : ℚ) by norm_num]
  rw [floatRound_natCast (le_refl 1) (by norm_num)]
  rw [show ((1 : ℕ) : ℚ) * 100 = ((100 : ℕ) : ℚ) by norm_num]
  rw [floatRound_natCast (by norm_num) (by norm_num)]
  rw [show (((100 : ℕ) : ℚ)) = (((100 : ℤ) : ℤ) : ℚ) by norm_num, Int.floor_intCast]
  rfl

/-- C5 as stated is false at a concrete input: a quiz whose single question
is true/false with configured correct value `"false"` grades the EMPTY answer
map fully correct (§C1), so the submission scores 100, not 0. -/
theorem submit_empty_answers_counterexample :
    ((submit_quiz defaultSettings exDb 7 1 []).1).map (fun r => r.score)
      = .ok 100 := by
  have h : (submit_quiz defaultSettings exDb 7 1 []).1
      = .ok (submitResult exDb 7 1 [] exQuiz [(exTfQuestion, true, "false", "")]) := rfl
  rw [h]
  show Except.ok
      (submitResult exDb 7 1 [] exQuiz [(exTfQuestion, true, "false", "")]).score
    = Except.ok 100
  rw [show (submitResult exDb 7 1 [] exQuiz
      [(exTfQuestion, true, "false", "")]).score = pyScore 1 1 from rfl]
  rw [pyScore_one_one]

/-- C5 amended: every successful submission has `score ≤ 100` (hence in
[0,100], scores being naturals) and `correct_count ≤ total_questions`, for
any answer map; the empty answer map yields score 0 provided no question of
the quiz grades the empty string correct (a true/false question whose correct
value normalizes to false does, and then the empty map scores above 0).  The
score itself is the truncated binary64 computation
`int(points_earned / total_points * 100)`, which can fall one below the exact
`floor(points_earned * 100 / total_points)` by float rounding. -/
theorem submit_score_bounds (st : Settings) (db : Db) (u qz : Int)
    (ans : List (Int × String)) (res : SubmitResult) (db' : Db)
    (h : submit_quiz st db u qz ans = (.ok res, db')) :
    res.score ≤ 100 ∧ res.correct_count ≤ res.total_questions ∧
    ((ans = [] ∧ ∀ q ∈ get_quiz_questions db qz,
        (grade_answer st q "").map (fun r => r.1) ≠ some true) →
      res.score = 0) := by
  obtain ⟨quiz, graded, hfind, hg, hres, hdb'⟩ := submit_quiz_ok h
  subst hres
  have hfst := gradeAll_fst hg
  refine ⟨?_, ?_, ?_⟩
  · rw [show (submitResult db u qz ans quiz graded).score =
      pyScore ((List.map (fun g => g.1.points) (List.filter (fun g => g.2.1) graded)).sum)
        ((List.map (fun q => q.points) (get_quiz_questions db qz)).sum) from rfl]
    apply pyScore_le_100
    have htp : (List.map (fun q => q.points) (get_quiz_questions db qz)).sum
        = (List.map (fun g => g.1.points) graded).sum := by
      rw [← hfst, List.map_map]
      rfl
    rw [htp]
    exact sum_points_filter_le _ graded
  · rw [show (submitResult db u qz ans quiz graded).correct_count =
      (List.filter (fun g => g.2.1) graded).length from rfl]
    rw [show (submitResult db u qz ans quiz graded).total_questions =
      (get_quiz_questions db qz).length from rfl]
    calc (List.filter (fun g => g.2.1) graded).length
        ≤ graded.length := List.length_filter_le _ _
      _ = (get_quiz_questions db qz).length := by rw [← hfst, List.length_map]
  · rintro ⟨hnil, hall⟩
    subst hnil
    have hfilter : List.filter (fun g => g.2.1) graded = [] := by
      rw [List.filter_eq_nil]
      intro g hgmem
      obtain ⟨hq, hgr⟩ := gradeAll_mem hg g hgmem
      have := hall g.1 hq
      rw [show userAnswerFor [] g.1 = "" from rfl] at hgr
      rw [hgr] at this
      simp only [Option.map_some', ne_eq, Option.some.injEq] at this
      simpa using this
    rw [show (submitResult db u qz [] quiz graded).score =
      pyScore ((List.map (fun g => g.1.points) (List.filter (fun g => g.2.1) graded)).sum)
        ((List.map (fun q => q.points) (get_quiz_questions db qz)).sum) from rfl]
    rw [hfilter]
    show pyScore 0 _ = 0
    exact pyScore_zero _

/-- Witness for C5 amended at the concrete submission of the
counterexample. -/
theorem submit_score_bounds_witness :
    (submitResult exDb 7 1 [] exQuiz [(exTfQuestion, true, "false", "")]).score ≤ 100 ∧
    (submitResult exDb 7 1 [] exQuiz [(exTfQuestion, true, "false", "")]).correct_count
      ≤ (submitResult exDb 7 1 [] exQuiz
          [(exTfQuestion, true, "false", "")]).total_questions ∧
    (([] : List (Int × String)) = [] ∧ (∀ q ∈ get_quiz_questions exDb 1,
        (grade_answer defaultSettings q "").map (fun r => r.1) ≠ some true) →
      (submitResult exDb 7 1 [] exQuiz [(exTfQuestion, true, "false", "")]).score = 0) :=
  submit_score_bounds defaultSettings exDb 7 1 []
    (submitResult exDb 7 1 [] exQuiz [(exTfQuestion, true, "false", "")])
    { exDb with attempts :=
        exDb.attempts ++ [submitAttempt exDb 7 1 [] exQuiz
          [(exTfQuestion, true, "false", "")]] } rfl

/-! ## Claim C4 -/

/-- C4: starting from a gaplessly numbered attempt history, any sequence of
sequential submissions preserves gapless numbering (for every user and quiz
the recorded attempt numbers are exactly `1, 2, ..., count`, no gaps, no
duplicates), and each successful submission is persisted with
`attempt_number` equal to the count of prior attempts plus one, extending
that user's history to `1, ..., count + 1`. -/
theorem sequential_attempt_numbers (st : Settings) (db : Db)
    (reqs : List SubmitReq) (hwn : WellNumbered db) :
    WellNumbered (runSubmits st reqs db) ∧
    ∀ u qz ans res db', submit_quiz st db u qz ans = (.ok res, db') →
      res.attempt_number = get_user_attempt_count db u qz + 1 ∧
      attemptNumbers db' u qz = List.range' 1 (get_user_attempt_count db u qz + 1) := by
  refine ⟨wellNumbered_runSubmits reqs db hwn, ?_⟩
  intro u qz ans res db' h
  obtain ⟨quiz, graded, hfind, hg, hres, hdb'⟩ := submit_quiz_ok h
  subst hres
  subst hdb'
  refine ⟨rfl, ?_⟩
  rw [attemptNumbers_append, if_pos ⟨rfl, rfl⟩, hwn u qz, List.range'_concat]
  show _ ++ [(submitAttempt db u qz ans quiz graded).attempt_number] = _
  rw [show (submitAttempt db u qz ans quiz graded).attempt_number
    = get_user_attempt_count db u qz + 1 from rfl]
  congr 1
  simp [Nat.add_comm]

/-- Witness for C4: two sequential submissions into the empty history of the
example database. -/
theorem sequential_attempt_numbers_witness :
    WellNumbered (runSubmits defaultSettings
      [⟨7, 1, []⟩, ⟨7, 1, []⟩] exDb) ∧
    ∀ u qz ans res db', submit_quiz defaultSettings exDb u qz ans = (.ok res, db') →
      res.attempt_number = get_user_attempt_count exDb u qz + 1 ∧
      attemptNumbers db' u qz
        = List.range' 1 (get_user_attempt_count exDb u qz + 1) :=
  sequential_attempt_numbers defaultSettings exDb [⟨7, 1, []⟩, ⟨7, 1, []⟩]
    (fun _ _ => rfl)
